import Mathlib

/-!
Shallow embedding of the Vercel-blob storage adapter
(src/VercelBlobDataAccessor.ts, src/VercelApi.ts and the alternate
accessor draft) together with proofs about the claims of its
specification.  The backing object store is modelled as an association
list from keys to blobs, extended with fault sets that let a head or a
put call fail with an opaque store error, and time is a natural-number
clock carried by the store.  Byte streams are lists of naturals and the
external metadata codec is modelled as the identity on triple lists.
-/

namespace VercelBlob

/-- Predicates of metadata triples.  The RDF vocabulary constants used by
the accessor are enumerated; any other predicate is carried as a string. -/
inductive Pred where
  | rdfType
  | dcModified
  | contentType
  | posixMtime
  | posixSize
  | other (s : String)
deriving DecidableEq

/-- One metadata statement: predicate plus object value. -/
structure Triple where
  pred : Pred
  obj : String
deriving DecidableEq

/-- Mutable RepresentationMetadata is modelled as the list of its triples. -/
abbrev Metadata := List Triple

/-- Object value of the LDP Resource class IRI. -/
def ldpResource : String := "ldp:Resource"

/-- Object value of the LDP Container class IRI. -/
def ldpContainer : String := "ldp:Container"

/-- Object value of the LDP BasicContainer class IRI. -/
def ldpBasicContainer : String := "ldp:BasicContainer"

/-- Content stored in a blob: raw data bytes, or a serialized triple set.
The metadata codec (serializeQuads and parseQuads) is external; it is
modelled as the identity embedding of triple lists into blob content. -/
inductive Content where
  | bytes (bs : List Nat)
  | quads (q : List Triple)
deriving DecidableEq

/-- Size reported for blob content by the store. -/
def Content.csize : Content → Nat
  | .bytes bs => bs.length
  | .quads q => q.length

/-- One stored object of the flat store. -/
structure Blob where
  content : Content
  uploadedAt : Nat
deriving DecidableEq

/-- Insert or overwrite the binding of a key in an association list,
modelling put with allowOverwrite. -/
def upsert : List (String × Blob) → String → Blob → List (String × Blob)
  | [], k, b => [(k, b)]
  | (k', b') :: t, k, b => if k' = k then (k, b) :: t else (k', b') :: upsert t k b

/-- Look a key up in an association list. -/
def findE : List (String × Blob) → String → Option Blob
  | [], _ => none
  | (k', b') :: t, k => if k' = k then some b' else findE t k

/-- Remove every binding of a key, modelling the delete primitive. -/
def eraseK : List (String × Blob) → String → List (String × Blob)
  | [], _ => []
  | (k', b') :: t, k => if k' = k then eraseK t k else (k', b') :: eraseK t k

/-- Suffix test on strings, written over the character list so that the
kernel can evaluate it on literals. -/
def sEndsWith (s suf : String) : Bool :=
  decide (s.toList.drop (s.toList.length - suf.toList.length) = suf.toList) &&
    decide (suf.toList.length ≤ s.toList.length)

/-- Prefix test on strings, written over the character list so that the
kernel can evaluate it on literals. -/
def sStartsWith (s pre : String) : Bool :=
  decide (s.toList.take pre.toList.length = pre.toList)

/-- Drop of leading characters, written over the character list. -/
def sDrop (s : String) (n : Nat) : String := String.mk (s.toList.drop n)

/-- Character count of a string. -/
def sLength (s : String) : Nat := s.toList.length

/-- The flat object store: stored entries, the keys on which the client
raises an opaque error for head or put calls, and the current clock used
to stamp uploads. -/
structure Store where
  entries : List (String × Blob)
  headFaulty : List String
  putFaulty : List String
  now : Nat
deriving DecidableEq

/-- Errors raised by the object store client itself. -/
inductive StoreErr where
  | notFound
  | fault
deriving DecidableEq

/-- The head primitive of the store client. -/
def Store.headE (s : Store) (k : String) : Except StoreErr Blob :=
  if k ∈ s.headFaulty then .error .fault
  else
    match findE s.entries k with
    | some b => .ok b
    | none => .error .notFound

/-- The put primitive of the store client with allowOverwrite. -/
def Store.putE (s : Store) (k : String) (c : Content) : Except StoreErr Store :=
  if k ∈ s.putFaulty then .error .fault
  else .ok { s with entries := upsert s.entries k ⟨c, s.now⟩ }

/-- The delete primitive; deleting an absent key is not an error. -/
def Store.delE (s : Store) (k : String) : Store :=
  { s with entries := eraseK s.entries k }

/-- The list primitive: every stored entry whose key starts with the
given string, in store order. -/
def Store.listP (s : Store) (pre : String) : List (String × Blob) :=
  s.entries.filter (fun p => sStartsWith p.1 pre)

/-- Errors visible at the accessor level. -/
inductive Err where
  | notFoundHttp
  | unsupportedMediaType
  | enoent
  | blobNotFound
  | storeFault
  | parseError
deriving DecidableEq

/-- A raw store client error surfaced unchanged to a caller. -/
def mapStoreErr : StoreErr → Err
  | .notFound => .blobNotFound
  | .fault => .storeFault

/-- A caller-visible resource identifier: an opaque URL string. -/
structure Identifier where
  path : String
deriving DecidableEq

/-- The ResourceLink produced by an identifier mapper. -/
structure Link where
  identifier : Identifier
  filePath : String
  contentType : Option String
  isMetadata : Bool
deriving DecidableEq

/-- An identifier mapper: identifier, sidecar flag and optional
content-type to a resource link. -/
abbrev Mapper := Identifier → Bool → Option String → Link

/-- Characters remaining after the first scheme separator of a URL. -/
def afterScheme : List Char → List Char
  | ':' :: '/' :: '/' :: rest => rest
  | _ :: rest => afterScheme rest
  | [] => []

/-- Pathname of a URL, as computed by the URL constructor: everything
from the first slash after the authority, or a single slash when the
URL has no path part. -/
def urlPathname (s : String) : String :=
  let rest := afterScheme s.toList
  let p := rest.dropWhile (fun c => c ≠ '/')
  String.mk (if p.isEmpty then ['/'] else p)

/-- The hardcoded fim mapper of the accessor: the storage key is the
letter x followed by the URL pathname, with the metadata suffix appended
for sidecar links; the content-type argument is ignored and the produced
link carries no content-type. -/
def fimMapper : Mapper := fun id isMetadata _contentType =>
  let c := urlPathname id.path
  let d := if isMetadata then c ++ ".meta" else c
  ⟨id, "x" ++ d, none, isMetadata⟩

/-- The primary storage key the fim mapper assigns to an identifier. -/
def primaryKey (id : Identifier) : String := (fimMapper id false none).filePath

/-- The sidecar storage key the fim mapper assigns to an identifier. -/
def metaKey (id : Identifier) : String := (fimMapper id true none).filePath

/-- True when the identifier path ends in the separator. -/
def isContainerIdentifier (id : Identifier) : Bool := sEndsWith id.path "/"

/-- True when the storage path ends in the separator. -/
def isContainerPath (p : String) : Bool := sEndsWith p "/"

/-- Stat result shape used throughout the accessor. -/
structure StatRes where
  isFile : Bool
  isDirectory : Bool
  mtime : Nat
  size : Nat
deriving DecidableEq

/-- Name suffix of the folder marker object used by the marker-based
container existence strategy. -/
def markerSuffix : String := ".FOLDER_MARKER_META_FILE"

/-- Bytes of the placeholder content written into a folder marker. -/
def markerBytes : List Nat := "nothing here".toList.map Char.toNat

/-- The stat of the VercelApi module, marker strategy: a container key
stats the folder marker object; a document key stats the key itself, the
reported kind derived from the pathname of the head response.  Every
head failure is collapsed into an ENOENT error. -/
def vstat (s : Store) (path : String) : Except Err StatRes :=
  if sEndsWith path "/" then
    match s.headE (path ++ markerSuffix) with
    | .ok b => .ok ⟨false, true, b.uploadedAt, 0⟩
    | .error _ => .error .enoent
  else
    match s.headE path with
    | .ok b => .ok ⟨!(sEndsWith path "/"), sEndsWith path "/", b.uploadedAt, b.content.csize⟩
    | .error _ => .error .enoent

/-- The lstat of the VercelApi module delegates to stat. -/
def vlstat (s : Store) (path : String) : Except Err StatRes := vstat s path

/-- The remove of the VercelApi module: a plain idempotent delete. -/
def vremove (s : Store) (k : String) : Store := s.delE k

/-- The createReadStream of the VercelApi module: head the key and fetch
its content; a head failure propagates as the raw store error. -/
def vcreateReadStream (s : Store) (path : String) : Except Err Content :=
  match s.headE path with
  | .ok b => .ok b.content
  | .error e => .error (mapStoreErr e)

/-- The createWriteStream of the VercelApi module: a put with overwrite
allowed; a put failure propagates as the raw store error. -/
def vcreateWriteStream (s : Store) (path : String) (c : Content) :
    Except Err Unit × Store :=
  match s.putE path c with
  | .ok s' => (.ok (), s')
  | .error e => (.error (mapStoreErr e), s)

/-- The ensureDir of the VercelApi module: stat the path and, when that
fails with ENOENT, write the folder marker object. -/
def vensureDir (s : Store) (path : String) : Except Err Unit × Store :=
  match vstat s path with
  | .ok _ => (.ok (), s)
  | .error e =>
    if e = .enoent then
      vcreateWriteStream s (path ++ markerSuffix) (Content.bytes markerBytes)
    else (.error e, s)

/-- Remove every triple with the given predicate and object, as the
remove method of RepresentationMetadata does. -/
def mdRemove : Metadata → Pred → String → Metadata
  | [], _, _ => []
  | t :: r, p, o =>
    if t.pred = p ∧ t.obj = o then mdRemove r p o else t :: mdRemove r p o

/-- Remove every triple with the given predicate, as the removeAll
method of RepresentationMetadata does. -/
def mdRemoveAll : Metadata → Pred → Metadata
  | [], _ => []
  | t :: r, p => if t.pred = p then mdRemoveAll r p else t :: mdRemoveAll r p

/-- Value of the first triple with the given predicate. -/
def mdGet : Metadata → Pred → Option String
  | [], _ => none
  | t :: r, p => if t.pred = p then some t.obj else mdGet r p

/-- Append one triple, as the add method of RepresentationMetadata does. -/
def mdAdd (md : Metadata) (p : Pred) (o : String) : Metadata := md ++ [⟨p, o⟩]

/-- The set method of RepresentationMetadata: remove every triple with
the predicate, then add the new value when one is given. -/
def mdSet (md : Metadata) (p : Pred) (v : Option String) : Metadata :=
  match v with
  | some o => mdAdd (mdRemoveAll md p) p o
  | none => mdRemoveAll md p

/-- The contentType convenience accessor of RepresentationMetadata. -/
def mdContentType (md : Metadata) : Option String := mdGet md .contentType

/-- Modelled from the external community-server utility
updateModifiedDate: set the dc-modified triple to the given time, dates
being modelled as natural numbers printed in decimal. -/
def updateModifiedDate (md : Metadata) (m : Nat) : Metadata :=
  mdSet md .dcModified (some (Nat.repr m))

/-- Modelled from the external community-server utility
addResourceMetadata: add the LDP Resource type, plus the Container and
BasicContainer types for containers. -/
def addResourceMetadata (md : Metadata) (isContainer : Bool) : Metadata :=
  let md1 := mdAdd md .rdfType ldpResource
  if isContainer then
    mdAdd (mdAdd md1 .rdfType ldpContainer) .rdfType ldpBasicContainer
  else md1

/-- The addPosixMetadata helper of the accessor: raise the dc-modified
date to the stat mtime when it is older, then add the posix mtime in
seconds and, for non-directories, the posix size. -/
def addPosixMetadata (md : Metadata) (st : StatRes) : Metadata :=
  let modified := (((mdGet md .dcModified).map (fun v => (v.toNat?).getD 0)).getD 0)
  let md1 := if modified < st.mtime then updateModifiedDate md st.mtime else md
  let md2 := mdAdd md1 .posixMtime (Nat.repr (st.mtime / 1000))
  if !st.isDirectory then mdAdd md2 .posixSize (Nat.repr st.size) else md2

/-- The triple filtering performed at the start of writeMetadataFile:
drop the three LDP kind triples and every dc-modified triple, then drop
every content-type triple when the link names a container path or the
link content-type equals the metadata content-type. -/
def filterForWrite (link : Link) (md : Metadata) : Metadata :=
  let md1 := mdRemove md .rdfType ldpResource
  let md2 := mdRemove md1 .rdfType ldpContainer
  let md3 := mdRemove md2 .rdfType ldpBasicContainer
  let md4 := mdRemoveAll md3 .dcModified
  if isContainerPath link.filePath ∨ link.contentType = mdContentType md4 then
    mdRemoveAll md4 .contentType
  else md4

/-- The getStats helper of the accessor: an ENOENT stat failure becomes
NotFound, any other error is rethrown. -/
def getStats (s : Store) (path : String) : Except Err StatRes :=
  match vstat s path with
  | .ok st => .ok st
  | .error e => if e = .enoent then .error .notFoundHttp else .error e

/-- The writeMetadataFile helper: filter the metadata in place, then
either put the serialized remaining triples at the sidecar key, or, when
none remain, delete any existing sidecar.  The mutated metadata is
returned as the third component to make the in-place update observable. -/
def writeMetadataFile (mp : Mapper) (s : Store) (link : Link) (md : Metadata) :
    Except Err Bool × Store × Metadata :=
  let md' := filterForWrite link md
  let quads := md'
  let metaLink := mp link.identifier true none
  if 0 < quads.length then
    match vcreateWriteStream s metaLink.filePath (Content.quads quads) with
    | (.ok _, s') => (.ok true, s', md')
    | (.error e, s') => (.error e, s', md')
  else
    (.ok false, vremove s metaLink.filePath, md')

/-- The writeDataFile helper delegates to createWriteStream. -/
def writeDataFile (s : Store) (path : String) (c : Content) :
    Except Err Unit × Store :=
  vcreateWriteStream s path c

/-- The verifyExistingExtension helper: when the key mapped without a
content-type differs from the link key, delete that old key. -/
def verifyExistingExtension (mp : Mapper) (s : Store) (link : Link) : Store :=
  let oldLink := mp link.identifier false none
  if oldLink.filePath = link.filePath then s else vremove s oldLink.filePath

/-- The writeDocument operation: map the identifier with the metadata
content-type, clean a stale key under a different extension, write the
sidecar, then write the data; when the data write fails after the
sidecar write succeeded, delete the just-written sidecar and rethrow. -/
def writeDocument (mp : Mapper) (s : Store) (id : Identifier)
    (bytes : List Nat) (md : Metadata) : Except Err Unit × Store × Metadata :=
  let link := mp id false (mdContentType md)
  let s1 := verifyExistingExtension mp s link
  match writeMetadataFile mp s1 link md with
  | (.error e, s2, md') => (.error e, s2, md')
  | (.ok wrote, s2, md') =>
    match writeDataFile s2 link.filePath (Content.bytes bytes) with
    | (.ok _, s3) => (.ok (), s3, md')
    | (.error e, s3) =>
      if wrote then
        let metaLink := mp id true none
        (.error e, vremove s3 metaLink.filePath, md')
      else (.error e, s3, md')

/-- The writeContainer operation: ensure the container exists via the
folder marker, then write its sidecar. -/
def writeContainer (mp : Mapper) (s : Store) (id : Identifier)
    (md : Metadata) : Except Err Unit × Store × Metadata :=
  let link := mp id false none
  match vensureDir s link.filePath with
  | (.ok _, s1) =>
    match writeMetadataFile mp s1 link md with
    | (.ok _, s2, md') => (.ok (), s2, md')
    | (.error e, s2, md') => (.error e, s2, md')
  | (.error e, s1) => (.error e, s1, md)

/-- The writeMetadata operation: write only the sidecar. -/
def writeMetadata (mp : Mapper) (s : Store) (id : Identifier)
    (md : Metadata) : Except Err Unit × Store × Metadata :=
  let metadataLink := mp id true none
  match writeMetadataFile mp s metadataLink md with
  | (.ok _, s', md') => (.ok (), s', md')
  | (.error e, s', md') => (.error e, s', md')

/-- The deleteResource operation: delete the sidecar unconditionally,
then stat the primary key and delete it when the reported kind matches
the identifier kind, failing with NotFound otherwise. -/
def deleteResource (mp : Mapper) (s : Store) (id : Identifier) :
    Except Err Unit × Store :=
  let metaLink := mp id true none
  let s1 := vremove s metaLink.filePath
  let link := mp id false none
  match getStats s1 link.filePath with
  | .error e => (.error e, s1)
  | .ok st =>
    if !(isContainerIdentifier id) && st.isFile then
      (.ok (), vremove s1 link.filePath)
    else if isContainerIdentifier id && st.isDirectory then
      (.ok (), vremove s1 link.filePath)
    else (.error .notFoundHttp, s1)

/-- The getData operation: stat the primary key; when it reports a file,
return its fetched content, otherwise fail with NotFound. -/
def getData (mp : Mapper) (s : Store) (id : Identifier) : Except Err Content :=
  let link := mp id false none
  match getStats s link.filePath with
  | .error e => .error e
  | .ok st =>
    if st.isFile then vcreateReadStream s link.filePath
    else .error .notFoundHttp

/-- Codec side of reading a sidecar: parsing succeeds exactly on
serialized triple sets. -/
def parseQuadsM : Content → Except Err Metadata
  | .quads q => .ok q
  | .bytes _ => .error .parseError

/-- The getRawMetadata helper: read and parse the sidecar, stamping the
sidecar modification date; an ENOENT failure anywhere in the attempt
yields empty metadata, any other error is rethrown. -/
def getRawMetadata (mp : Mapper) (s : Store) (id : Identifier) :
    Except Err Metadata :=
  let metaLink := mp id true none
  match vlstat s metaLink.filePath with
  | .error e => if e = .enoent then .ok [] else .error e
  | .ok st =>
    match vcreateReadStream s metaLink.filePath with
    | .error e => if e = .enoent then .ok [] else .error e
    | .ok c =>
      match parseQuadsM c with
      | .error e => if e = .enoent then .ok [] else .error e
      | .ok q => .ok (updateModifiedDate q st.mtime)

/-- The getBaseMetadata helper: raw sidecar triples plus derived kind
and posix facts. -/
def getBaseMetadata (mp : Mapper) (s : Store) (link : Link) (st : StatRes)
    (isContainer : Bool) : Except Err Metadata :=
  match getRawMetadata mp s link.identifier with
  | .error e => .error e
  | .ok md => .ok (addPosixMetadata (addResourceMetadata md isContainer) st)

/-- The getFileMetadata helper: base metadata, with the key-derived
content-type set only when the sidecar supplied none. -/
def getFileMetadata (mp : Mapper) (s : Store) (link : Link) (st : StatRes) :
    Except Err Metadata :=
  match getBaseMetadata mp s link st false with
  | .error e => .error e
  | .ok md =>
    .ok (if mdContentType md = none then mdSet md .contentType link.contentType else md)

/-- The getDirectoryMetadata helper. -/
def getDirectoryMetadata (mp : Mapper) (s : Store) (link : Link) (st : StatRes) :
    Except Err Metadata :=
  getBaseMetadata mp s link st true

/-- The getMetadata operation: stat the primary key and build document
or container metadata when the kinds agree, failing with NotFound on a
mismatch. -/
def getMetadata (mp : Mapper) (s : Store) (id : Identifier) :
    Except Err Metadata :=
  let link := mp id false none
  match getStats s link.filePath with
  | .error e => .error e
  | .ok st =>
    if !(isContainerIdentifier id) && st.isFile then getFileMetadata mp s link st
    else if isContainerIdentifier id && st.isDirectory then
      getDirectoryMetadata mp s link st
    else .error .notFoundHttp

/-- Index of the first separator character, modelling the indexOf call
of the alternate getChildren. -/
def idxOfSlash : List Char → Option Nat
  | [] => none
  | c :: r => if c = '/' then some 0 else (idxOfSlash r).map (fun i => i + 1)

/-- Child name computed by the alternate getChildren for one relative
path: the path itself when it holds no separator, otherwise its slice up
to and including the first separator. -/
def childNameImpl (rel : String) : String :=
  match idxOfSlash rel.toList with
  | none => rel
  | some i => String.mk (rel.toList.take (i + 1))

/-- Specification-style child name: the whole relative path for a direct
document, or the first segment plus the trailing separator. -/
def childNameSpec (rel : String) : String :=
  if '/' ∈ rel.toList then
    String.mk (rel.toList.takeWhile (fun c => c ≠ '/') ++ ['/'])
  else rel

/-- The getBlobIdentifier helper of the alternate accessor: the mapped
file path with its first character removed. -/
def getBlobIdentifier (mp : Mapper) (id : Identifier) : String :=
  sDrop ((mp id false none).filePath) 1

/-- The getChildren of the alternate accessor: list every blob under the
prefix and map each one to a child name, files keeping their relative
path and deeper keys collapsing to the first segment plus separator. -/
def getChildrenAlt (mp : Mapper) (s : Store) (id : Identifier) :
    Except Err (List String) :=
  let pre := getBlobIdentifier mp id
  let blobs := s.listP pre
  .ok (blobs.map (fun kb => childNameImpl (sDrop kb.1 (sLength pre))))

/-- The stat of the alternate accessor, prefix-listing strategy: a
container key issues a prefix list call and reports a directory with the
current date; a document key heads the key with its first character
removed.  Every head failure is collapsed into an ENOENT error. -/
def statListAlt (s : Store) (path : String) : Except Err StatRes :=
  if sEndsWith path "/" then
    let _ := s.listP path
    .ok ⟨false, true, s.now, 0⟩
  else
    match s.headE (sDrop path 1) with
    | .ok b =>
      .ok ⟨!(sEndsWith (sDrop path 1) "/"), sEndsWith (sDrop path 1) "/",
        b.uploadedAt, b.content.csize⟩
    | .error _ => .error .enoent

/-- A mapper that varies the storage key with the content-type, used to
exercise the extension-migration branch of writeDocument: html maps to
an html extension, anything else to a txt extension. -/
def extMapper : Mapper := fun id isMetadata contentType =>
  let ext := if contentType = some "text/html" then ".html" else ".txt"
  let base := urlPathname id.path ++ ext
  ⟨id, (if isMetadata then base ++ ".meta" else base), contentType, isMetadata⟩

/-- No triple carries one of the three LDP kind classes. -/
def noLdpKinds (md : Metadata) : Prop :=
  ∀ t ∈ md, ¬(t.pred = Pred.rdfType ∧
    (t.obj = ldpResource ∨ t.obj = ldpContainer ∨ t.obj = ldpBasicContainer))

/-- No triple carries the dc-modified predicate. -/
def noModified (md : Metadata) : Prop := ∀ t ∈ md, t.pred ≠ Pred.dcModified

/-- No triple carries the content-type predicate. -/
def noCT (md : Metadata) : Prop := ∀ t ∈ md, t.pred ≠ Pred.contentType

/-- A concrete document identifier used by concrete instantiations. -/
def exDocId : Identifier := ⟨"http://ex.org/docs/a"⟩

/-- A concrete container identifier used by concrete instantiations. -/
def exDirId : Identifier := ⟨"http://ex.org/docs/"⟩

/-- A concrete metadata set holding one content-type triple and one
application triple. -/
def exMdCT : Metadata :=
  [⟨Pred.contentType, "text/plain"⟩, ⟨Pred.other "ex:p", "v"⟩]

/-- A concrete metadata set holding only posix-style triples. -/
def exMdPosix : Metadata := [⟨Pred.posixSize, "5"⟩, ⟨Pred.posixMtime, "99"⟩]

/-- A concrete metadata set holding kind, modified, content-type and
application triples. -/
def exMdFull : Metadata :=
  [⟨Pred.rdfType, ldpResource⟩, ⟨Pred.dcModified, "123"⟩,
    ⟨Pred.contentType, "text/plain"⟩, ⟨Pred.other "ex:p", "v"⟩]

/-- A concrete metadata set holding a single html content-type triple. -/
def exMdHtml : Metadata := [⟨Pred.contentType, "text/html"⟩]

/-- A store holding the stale text extension key of the concrete
document, as left behind by an earlier write under another type. -/
def exStoreOldExt : Store :=
  ⟨[("/docs/a.txt", Blob.mk (Content.bytes [1]) 0)], [], [], 5⟩

/-- The empty store. -/
def emptyStore : Store := ⟨[], [], [], 0⟩

/-- A store where the data put of the concrete document fails. -/
def exStoreDataFault : Store := ⟨[], [], ["x/docs/a"], 0⟩

/-- A store holding one blob whose head calls fail with an opaque error. -/
def exStoreHeadFault : Store :=
  ⟨[("p", Blob.mk (Content.bytes []) 0)], ["p"], [], 0⟩

/-- A store holding the concrete document blob. -/
def exStoreDoc : Store :=
  ⟨[("x/docs/a", Blob.mk (Content.bytes [104, 105]) 3)], [], [], 7⟩

/-- A store with keys under a common directory, including a sidecar and
two keys in the same subfolder. -/
def exStoreTree : Store :=
  ⟨[("/docs/a.txt", Blob.mk (Content.bytes [1]) 0),
    ("/docs/a.txt.meta", Blob.mk (Content.quads exMdCT) 0),
    ("/docs/sub/b.txt", Blob.mk (Content.bytes [2]) 0),
    ("/docs/sub/c.txt", Blob.mk (Content.bytes [3]) 0)], [], [], 0⟩

lemma findE_upsert_self (l : List (String × Blob)) (k : String) (b : Blob) :
    findE (upsert l k b) k = some b := by
  induction l with
  | nil => simp [upsert, findE]
  | cons hd tl ih =>
    by_cases h : hd.1 = k
    · simp [upsert, findE, h]
    · simp [upsert, findE, h, ih]

lemma findE_upsert_ne (l : List (String × Blob)) (k k' : String) (b : Blob)
    (h : k' ≠ k) : findE (upsert l k b) k' = findE l k' := by
  induction l with
  | nil => simp [upsert, findE, Ne.symm h]
  | cons hd tl ih =>
    by_cases hk : hd.1 = k
    · simp [upsert, findE, hk, Ne.symm h]
    · by_cases hk' : hd.1 = k'
      · simp [upsert, findE, hk, hk', h]
      · simp [upsert, findE, hk, hk', ih]

lemma findE_eraseK_self (l : List (String × Blob)) (k : String) :
    findE (eraseK l k) k = none := by
  induction l with
  | nil => simp [eraseK, findE]
  | cons hd tl ih =>
    by_cases h : hd.1 = k
    · simp [eraseK, h, ih]
    · simp [eraseK, findE, h, ih]

lemma findE_eraseK_ne (l : List (String × Blob)) (k k' : String)
    (h : k' ≠ k) : findE (eraseK l k) k' = findE l k' := by
  induction l with
  | nil => simp [eraseK]
  | cons hd tl ih =>
    by_cases hk : hd.1 = k
    · simp [eraseK, findE, hk, Ne.symm h, ih]
    · simp [eraseK, findE, hk, ih]

lemma mdGet_mdRemove_ne (md : Metadata) (p q : Pred) (o : String)
    (h : q ≠ p) : mdGet (mdRemove md p o) q = mdGet md q := by
  induction md with
  | nil => simp [mdRemove]
  | cons t r ih =>
    by_cases hp : t.pred = p ∧ t.obj = o
    · simp [mdRemove, hp, mdGet, hp.1, Ne.symm h, ih]
    · by_cases hq : t.pred = q
      · simp [mdRemove, hp, mdGet, hq, h]
      · simp [mdRemove, hp, mdGet, hq, ih]

lemma mdGet_mdRemoveAll_ne (md : Metadata) (p q : Pred)
    (h : q ≠ p) : mdGet (mdRemoveAll md p) q = mdGet md q := by
  induction md with
  | nil => simp [mdRemoveAll]
  | cons t r ih =>
    by_cases hp : t.pred = p
    · simp [mdRemoveAll, hp, mdGet, Ne.symm h, ih]
    · by_cases hq : t.pred = q
      · simp [mdRemoveAll, hp, mdGet, hq, h]
      · simp [mdRemoveAll, hp, mdGet, hq, ih]

lemma mdGet_append_some (l r : Metadata) (q : Pred) (v : String)
    (h : mdGet l q = some v) : mdGet (l ++ r) q = some v := by
  induction l with
  | nil => simp [mdGet] at h
  | cons t tl ih =>
    by_cases hq : t.pred = q
    · simp [mdGet, hq] at h ⊢; exact h
    · simp [mdGet, hq] at h ⊢; exact ih h

lemma mdGet_append_none (l r : Metadata) (q : Pred)
    (h : mdGet l q = none) : mdGet (l ++ r) q = mdGet r q := by
  induction l with
  | nil => simp
  | cons t tl ih =>
    by_cases hq : t.pred = q
    · simp [mdGet, hq] at h
    · simp [mdGet, hq] at h ⊢; exact ih h

lemma mdGet_mdAdd_ne (md : Metadata) (p q : Pred) (o : String)
    (h : q ≠ p) : mdGet (mdAdd md p o) q = mdGet md q := by
  cases hv : mdGet md q with
  | some v => exact mdGet_append_some md [⟨p, o⟩] q v hv
  | none =>
    rw [mdAdd, mdGet_append_none md [⟨p, o⟩] q hv]
    simp [mdGet, Ne.symm h]

lemma mdGet_mdSet_ne (md : Metadata) (p q : Pred) (v : Option String)
    (h : q ≠ p) : mdGet (mdSet md p v) q = mdGet md q := by
  cases v with
  | none => simpa [mdSet] using mdGet_mdRemoveAll_ne md p q h
  | some o =>
    rw [mdSet, mdGet_mdAdd_ne _ _ _ _ h, mdGet_mdRemoveAll_ne md p q h]

lemma mdGet_mdRemoveAll_self (md : Metadata) (p : Pred) :
    mdGet (mdRemoveAll md p) p = none := by
  induction md with
  | nil => simp [mdRemoveAll, mdGet]
  | cons t r ih =>
    by_cases hp : t.pred = p
    · simp [mdRemoveAll, hp, ih]
    · simp [mdRemoveAll, hp, mdGet, ih]

lemma mdGet_some_ne_nil (md : Metadata) (p : Pred) (v : String)
    (h : mdGet md p = some v) : md ≠ [] := by
  intro hnil
  rw [hnil] at h
  simp [mdGet] at h

lemma mdCT_add (m : Metadata) (p : Pred) (o : String)
    (h : p ≠ Pred.contentType) : mdContentType (mdAdd m p o) = mdContentType m :=
  mdGet_mdAdd_ne m p .contentType o (Ne.symm h)

lemma mdCT_updateModified (m : Metadata) (n : Nat) :
    mdContentType (updateModifiedDate m n) = mdContentType m := by
  unfold updateModifiedDate
  exact mdGet_mdSet_ne m .dcModified .contentType _ (by decide)

lemma mdCT_addResource (m : Metadata) (b : Bool) :
    mdContentType (addResourceMetadata m b) = mdContentType m := by
  cases b with
  | false =>
    simp only [addResourceMetadata, Bool.false_eq_true, if_false]
    exact mdCT_add m .rdfType ldpResource (by decide)
  | true =>
    simp only [addResourceMetadata, if_true]
    rw [mdCT_add _ _ _ (by decide), mdCT_add _ _ _ (by decide),
      mdCT_add _ _ _ (by decide)]

lemma mdCT_addPosix (m : Metadata) (st : StatRes) :
    mdContentType (addPosixMetadata m st) = mdContentType m := by
  simp only [addPosixMetadata]
  split
  · rw [mdCT_add _ _ _ (by decide), mdCT_add _ _ _ (by decide)]
    split
    · rw [mdCT_updateModified]
    · rfl
  · rw [mdCT_add _ _ _ (by decide)]
    split
    · rw [mdCT_updateModified]
    · rfl

/-- Content-type value preservation through the read-side enrichment
pipeline of getFileMetadata and getDirectoryMetadata. -/
lemma mdCT_pipeline (md : Metadata) (b : Bool) (st : StatRes) :
    mdContentType (addPosixMetadata (addResourceMetadata md b) st) = mdContentType md := by
  rw [mdCT_addPosix, mdCT_addResource]

lemma mdCT_filter_chain (md : Metadata) :
    mdContentType (mdRemoveAll (mdRemove (mdRemove (mdRemove md Pred.rdfType
      ldpResource) Pred.rdfType ldpContainer) Pred.rdfType ldpBasicContainer)
      Pred.dcModified) = mdContentType md := by
  unfold mdContentType
  rw [mdGet_mdRemoveAll_ne _ _ _ (by decide), mdGet_mdRemove_ne _ _ _ _ (by decide),
    mdGet_mdRemove_ne _ _ _ _ (by decide), mdGet_mdRemove_ne _ _ _ _ (by decide)]

/-- With a non-container link that carries no content-type, the write
filter leaves the content-type value of the metadata unchanged: a
present value never matches the absent link type, and an absent value
stays absent under removal. -/
lemma mdCT_filterForWrite (link : Link) (md : Metadata)
    (hc : isContainerPath link.filePath = false) (hn : link.contentType = none) :
    mdContentType (filterForWrite link md) = mdContentType md := by
  simp only [filterForWrite]
  generalize hmd4 : mdRemoveAll (mdRemove (mdRemove (mdRemove md Pred.rdfType
    ldpResource) Pred.rdfType ldpContainer) Pred.rdfType ldpBasicContainer)
    Pred.dcModified = md4
  have h4 : mdContentType md4 = mdContentType md := by
    rw [← hmd4]; exact mdCT_filter_chain md
  cases hct : mdContentType md with
  | some c =>
    have hncond : ¬(isContainerPath link.filePath = true ∨
        link.contentType = mdContentType md4) := by
      intro hcond
      rcases hcond with hcont | heq
      · rw [hc] at hcont; exact Bool.false_ne_true hcont
      · rw [hn, h4, hct] at heq; cases heq
    rw [if_neg hncond]
    rw [h4, hct]
  | none =>
    rw [if_pos (Or.inr (by rw [hn, h4, hct]))]
    unfold mdContentType
    rw [mdGet_mdRemoveAll_self]

lemma writeMetadataFile_eq_pos (mp : Mapper) (s : Store) (link : Link) (md : Metadata)
    (hq : 0 < (filterForWrite link md).length)
    (hmk : (mp link.identifier true none).filePath ∉ s.putFaulty) :
    writeMetadataFile mp s link md =
      (.ok true,
        { s with
            entries :=
              upsert s.entries ((mp link.identifier true none).filePath)
                (Blob.mk (Content.quads (filterForWrite link md)) s.now) },
        filterForWrite link md) := by
  simp only [writeMetadataFile, vcreateWriteStream, Store.putE, if_pos hq, if_neg hmk]

lemma writeMetadataFile_eq_neg (mp : Mapper) (s : Store) (link : Link) (md : Metadata)
    (hq : (filterForWrite link md).length = 0) :
    writeMetadataFile mp s link md =
      (.ok false, Store.delE s ((mp link.identifier true none).filePath),
        filterForWrite link md) := by
  simp only [writeMetadataFile, vremove]
  rw [if_neg (by rw [hq]; exact Nat.lt_irrefl 0)]

lemma verify_fim_eq (s : Store) (id : Identifier) (ct : Option String) :
    verifyExistingExtension fimMapper s (fimMapper id false ct) = s := by
  simp [verifyExistingExtension, fimMapper]

lemma fim_identifier (id : Identifier) (m : Bool) (ct : Option String) :
    (fimMapper id m ct).identifier = id := rfl

lemma fim_filePath_false (id : Identifier) (ct : Option String) :
    (fimMapper id false ct).filePath = primaryKey id := rfl

lemma fim_filePath_true (id : Identifier) (ct : Option String) :
    (fimMapper id true ct).filePath = metaKey id := rfl

lemma fim_contentType (id : Identifier) (m : Bool) (ct : Option String) :
    (fimMapper id m ct).contentType = none := rfl

lemma writeDocument_fim_ok_pos (s : Store) (id : Identifier) (bytes : List Nat)
    (md : Metadata)
    (hq : 0 < (filterForWrite (fimMapper id false (mdContentType md)) md).length)
    (hmk : metaKey id ∉ s.putFaulty) (hpk : primaryKey id ∉ s.putFaulty) :
    writeDocument fimMapper s id bytes md =
      (.ok (),
        { s with
            entries :=
              upsert
                (upsert s.entries (metaKey id)
                  (Blob.mk (Content.quads
                    (filterForWrite (fimMapper id false (mdContentType md)) md)) s.now))
                (primaryKey id) (Blob.mk (Content.bytes bytes) s.now) },
        filterForWrite (fimMapper id false (mdContentType md)) md) := by
  have hmk' : (fimMapper (fimMapper id false (mdContentType md)).identifier true
      none).filePath ∉ s.putFaulty := hmk
  simp only [writeDocument, verify_fim_eq,
    writeMetadataFile_eq_pos fimMapper s _ md hq hmk']
  simp only [writeDataFile, vcreateWriteStream, Store.putE, fim_identifier,
    fim_filePath_false, fim_filePath_true, if_neg hpk]

lemma writeDocument_fim_ok_neg (s : Store) (id : Identifier) (bytes : List Nat)
    (md : Metadata)
    (hq : (filterForWrite (fimMapper id false (mdContentType md)) md).length = 0)
    (hpk : primaryKey id ∉ s.putFaulty) :
    writeDocument fimMapper s id bytes md =
      (.ok (),
        { s with
            entries :=
              upsert (eraseK s.entries (metaKey id)) (primaryKey id)
                (Blob.mk (Content.bytes bytes) s.now) },
        filterForWrite (fimMapper id false (mdContentType md)) md) := by
  simp only [writeDocument, verify_fim_eq,
    writeMetadataFile_eq_neg fimMapper s _ md hq]
  simp only [writeDataFile, vcreateWriteStream, Store.putE, Store.delE,
    fim_identifier, fim_filePath_false, fim_filePath_true, if_neg hpk]

/-- Claim C9: the hardcoded fim mapper resolves every identifier to the same
storage key regardless of the content-type argument, the key being x
plus the URL pathname, with the metadata suffix appended for sidecar
links; consequently verifyExistingExtension compares two equal file
paths and never deletes a stale key. -/
theorem fim_ignores_content_type :
    (∀ (id : Identifier) (m : Bool) (c c' : Option String),
      fimMapper id m c = fimMapper id m c') ∧
    (∀ (id : Identifier) (c : Option String),
      (fimMapper id false c).filePath = "x" ++ urlPathname id.path) ∧
    (∀ (id : Identifier) (c : Option String),
      (fimMapper id true c).filePath = "x" ++ (urlPathname id.path ++ ".meta")) ∧
    (∀ (s : Store) (id : Identifier) (c : Option String),
      verifyExistingExtension fimMapper s (fimMapper id false c) = s) := by
  refine ⟨fun id m c c' => rfl, fun id c => rfl, fun id c => rfl,
    fun s id c => verify_fim_eq s id c⟩

/-- Claim C1: when the sidecar write of writeDocument succeeded and the data
write then fails, the accessor deletes the just-written sidecar key and
re-raises the data-write failure; the sidecar key is absent from the
resulting store. -/
theorem writeDocument_rollback (s : Store) (id : Identifier) (bytes : List Nat)
    (md : Metadata)
    (hq : 0 < (filterForWrite (fimMapper id false (mdContentType md)) md).length)
    (hmk : metaKey id ∉ s.putFaulty)
    (hpk : primaryKey id ∈ s.putFaulty) :
    (writeDocument fimMapper s id bytes md).1 = .error .storeFault ∧
    findE (writeDocument fimMapper s id bytes md).2.1.entries (metaKey id) = none := by
  have hmk' : (fimMapper (fimMapper id false (mdContentType md)).identifier true
      none).filePath ∉ s.putFaulty := hmk
  have hred : writeDocument fimMapper s id bytes md =
      (.error .storeFault,
        Store.delE
          { s with
              entries :=
                upsert s.entries (metaKey id)
                  (Blob.mk (Content.quads
                    (filterForWrite (fimMapper id false (mdContentType md)) md)) s.now) }
          (metaKey id),
        filterForWrite (fimMapper id false (mdContentType md)) md) := by
    simp only [writeDocument, verify_fim_eq,
      writeMetadataFile_eq_pos fimMapper s _ md hq hmk']
    simp only [writeDataFile, vcreateWriteStream, Store.putE, fim_identifier,
      fim_filePath_false, fim_filePath_true, if_pos hpk, mapStoreErr, vremove,
      if_true]
  rw [hred]
  exact ⟨rfl, by simp only [Store.delE]; exact findE_eraseK_self _ _⟩

/-- Witness for the rollback theorem: a store that faults the data put
of the concrete document while the sidecar put succeeds. -/
theorem writeDocument_rollback_witness :
    0 < (filterForWrite (fimMapper exDocId false (mdContentType exMdCT)) exMdCT).length ∧
    metaKey exDocId ∉ exStoreDataFault.putFaulty ∧
    primaryKey exDocId ∈ exStoreDataFault.putFaulty ∧
    ((writeDocument fimMapper exStoreDataFault exDocId [104, 105] exMdCT).1 =
        .error .storeFault ∧
      findE (writeDocument fimMapper exStoreDataFault exDocId [104, 105]
        exMdCT).2.1.entries (metaKey exDocId) = none) :=
  ⟨by decide, by decide, by decide,
    writeDocument_rollback exStoreDataFault exDocId [104, 105] exMdCT
      (by decide) (by decide) (by decide)⟩

/-- Claim C7 counterexample: a key that is present in the store but whose head
call fails with an opaque store error is reported by getStats as
NotFound, not as the opaque storage failure the claim requires. -/
theorem getStats_fault_to_notFound_cex :
    findE exStoreHeadFault.entries "p" = some (Blob.mk (Content.bytes []) 0) ∧
    "p" ∈ exStoreHeadFault.headFaulty ∧
    getStats exStoreHeadFault "p" = .error .notFoundHttp := by
  refine ⟨by decide, by decide, rfl⟩

/-- Claim C7 amended: at the stat site, a key-absent result and every other
store head error are both surfaced as NotFound, because the internal
stat collapses every head failure into an ENOENT error which getStats
then normalizes to NotFound; the definitions perform a single head call,
so no retry happens. -/
theorem getStats_collapses_all_head_errors (s : Store) (p : String)
    (hp : sEndsWith p "/" = false)
    (h : p ∈ s.headFaulty ∨ findE s.entries p = none) :
    getStats s p = .error .notFoundHttp := by
  rcases h with h | h
  · simp [getStats, vstat, Store.headE, hp, h]
  · by_cases hm : p ∈ s.headFaulty
    · simp [getStats, vstat, Store.headE, hp, hm]
    · simp [getStats, vstat, Store.headE, hp, hm, h]

/-- Witness for the amended getStats theorem at the faulting store. -/
theorem getStats_collapses_all_head_errors_witness :
    sEndsWith "p" "/" = false ∧
    ("p" ∈ exStoreHeadFault.headFaulty ∨ findE exStoreHeadFault.entries "p" = none) ∧
    getStats exStoreHeadFault "p" = .error .notFoundHttp :=
  ⟨by decide, Or.inl (by decide),
    getStats_collapses_all_head_errors exStoreHeadFault "p" (by decide)
      (Or.inl (by decide))⟩

/-- Claim C6 counterexample: on the empty store the prefix-listing stat of the
alternate accessor succeeds with kind Directory although the prefix has
no listable object at all, where the claim requires NotFound. -/
theorem containerStat_empty_prefix_cex :
    statListAlt emptyStore "docs/" = .ok (StatRes.mk false true 0 0) ∧
    emptyStore.listP "docs/" = [] := by
  refine ⟨rfl, by decide⟩

/-- Claim C6 amended: under the prefix-listing strategy the container stat
always succeeds with kind Directory, whatever the prefix holds, because
the result of the list call is never inspected; under the marker
strategy the container stat succeeds exactly when the folder marker
object exists and reports ENOENT absence otherwise. -/
theorem containerStat_amended (s : Store) (p : String)
    (hp : sEndsWith p "/" = true)
    (hm : (p ++ markerSuffix) ∉ s.headFaulty) :
    statListAlt s p = .ok (StatRes.mk false true s.now 0) ∧
    (findE s.entries (p ++ markerSuffix) = none → vstat s p = .error .enoent) ∧
    (∀ b, findE s.entries (p ++ markerSuffix) = some b →
      vstat s p = .ok (StatRes.mk false true b.uploadedAt 0)) := by
  refine ⟨by simp [statListAlt, hp], ?_, ?_⟩
  · intro h; simp [vstat, Store.headE, hp, hm, h]
  · intro b h; simp [vstat, Store.headE, hp, hm, h]

/-- Witness for the amended container stat theorem on the empty store. -/
theorem containerStat_amended_witness :
    sEndsWith "docs/" "/" = true ∧
    ("docs/" ++ markerSuffix) ∉ emptyStore.headFaulty ∧
    (statListAlt emptyStore "docs/" = .ok (StatRes.mk false true emptyStore.now 0) ∧
      (findE emptyStore.entries ("docs/" ++ markerSuffix) = none →
        vstat emptyStore "docs/" = .error .enoent) ∧
      (∀ b, findE emptyStore.entries ("docs/" ++ markerSuffix) = some b →
        vstat emptyStore "docs/" = .ok (StatRes.mk false true b.uploadedAt 0))) :=
  ⟨by decide, by decide,
    containerStat_amended emptyStore "docs/" (by decide) (by decide)⟩

lemma mem_mdRemove (md : Metadata) (p : Pred) (o : String) (t : Triple) :
    t ∈ mdRemove md p o ↔ t ∈ md ∧ ¬(t.pred = p ∧ t.obj = o) := by
  induction md with
  | nil => simp [mdRemove]
  | cons hd r ih =>
    simp only [mdRemove]
    split
    case isTrue hp =>
      rw [ih, List.mem_cons]
      constructor
      · rintro ⟨h1, h2⟩; exact ⟨Or.inr h1, h2⟩
      · rintro ⟨h1 | h1, h2⟩
        · exfalso; apply h2; rw [h1]; exact hp
        · exact ⟨h1, h2⟩
    case isFalse hp =>
      rw [List.mem_cons, ih, List.mem_cons]
      constructor
      · rintro (h1 | ⟨h1, h2⟩)
        · exact ⟨Or.inl h1, by rw [h1]; exact hp⟩
        · exact ⟨Or.inr h1, h2⟩
      · rintro ⟨h1 | h1, h2⟩
        · exact Or.inl h1
        · exact Or.inr ⟨h1, h2⟩

lemma mem_mdRemoveAll (md : Metadata) (p : Pred) (t : Triple) :
    t ∈ mdRemoveAll md p ↔ t ∈ md ∧ t.pred ≠ p := by
  induction md with
  | nil => simp [mdRemoveAll]
  | cons hd r ih =>
    simp only [mdRemoveAll]
    split
    case isTrue hp =>
      rw [ih, List.mem_cons]
      constructor
      · rintro ⟨h1, h2⟩; exact ⟨Or.inr h1, h2⟩
      · rintro ⟨h1 | h1, h2⟩
        · exfalso; apply h2; rw [h1]; exact hp
        · exact ⟨h1, h2⟩
    case isFalse hp =>
      rw [List.mem_cons, ih, List.mem_cons]
      constructor
      · rintro (h1 | ⟨h1, h2⟩)
        · exact ⟨Or.inl h1, by rw [h1]; exact hp⟩
        · exact ⟨Or.inr h1, h2⟩
      · rintro ⟨h1 | h1, h2⟩
        · exact Or.inl h1
        · exact Or.inr ⟨h1, h2⟩

/-- Exact characterization of the triples surviving the write filter. -/
lemma mem_filterForWrite (link : Link) (md : Metadata) (t : Triple) :
    t ∈ filterForWrite link md ↔ t ∈ md ∧
      ¬(t.pred = Pred.rdfType ∧
        (t.obj = ldpResource ∨ t.obj = ldpContainer ∨ t.obj = ldpBasicContainer)) ∧
      t.pred ≠ Pred.dcModified ∧
      ((isContainerPath link.filePath = true ∨ link.contentType = mdContentType md) →
        t.pred ≠ Pred.contentType) := by
  simp only [filterForWrite]
  split
  case isTrue hcond =>
    have hcond' : isContainerPath link.filePath = true ∨
        link.contentType = mdContentType md := by
      rcases hcond with h | h
      · exact Or.inl h
      · exact Or.inr (by rw [h, mdCT_filter_chain])
    rw [mem_mdRemoveAll, mem_mdRemoveAll, mem_mdRemove, mem_mdRemove, mem_mdRemove]
    constructor
    · rintro ⟨⟨⟨⟨⟨h0, h1⟩, h2⟩, h3⟩, h4⟩, h5⟩
      refine ⟨h0, ?_, h4, fun _ => h5⟩
      rintro ⟨hp, ho | ho | ho⟩
      · exact h1 ⟨hp, ho⟩
      · exact h2 ⟨hp, ho⟩
      · exact h3 ⟨hp, ho⟩
    · rintro ⟨h0, h1, h2, h3⟩
      refine ⟨⟨⟨⟨⟨h0, ?_⟩, ?_⟩, ?_⟩, h2⟩, h3 hcond'⟩
      · rintro ⟨hp, ho⟩; exact h1 ⟨hp, Or.inl ho⟩
      · rintro ⟨hp, ho⟩; exact h1 ⟨hp, Or.inr (Or.inl ho)⟩
      · rintro ⟨hp, ho⟩; exact h1 ⟨hp, Or.inr (Or.inr ho)⟩
  case isFalse hcond =>
    have hcond' : ¬(isContainerPath link.filePath = true ∨
        link.contentType = mdContentType md) := by
      intro hc
      apply hcond
      rcases hc with h | h
      · exact Or.inl h
      · exact Or.inr (by rw [mdCT_filter_chain]; exact h)
    rw [mem_mdRemoveAll, mem_mdRemove, mem_mdRemove, mem_mdRemove]
    constructor
    · rintro ⟨⟨⟨⟨h0, h1⟩, h2⟩, h3⟩, h4⟩
      refine ⟨h0, ?_, h4, fun hc => absurd hc hcond'⟩
      rintro ⟨hp, ho | ho | ho⟩
      · exact h1 ⟨hp, ho⟩
      · exact h2 ⟨hp, ho⟩
      · exact h3 ⟨hp, ho⟩
    · rintro ⟨h0, h1, h2, _⟩
      refine ⟨⟨⟨⟨h0, ?_⟩, ?_⟩, ?_⟩, h2⟩
      · rintro ⟨hp, ho⟩; exact h1 ⟨hp, Or.inl ho⟩
      · rintro ⟨hp, ho⟩; exact h1 ⟨hp, Or.inr (Or.inl ho)⟩
      · rintro ⟨hp, ho⟩; exact h1 ⟨hp, Or.inr (Or.inr ho)⟩

lemma filter_noLdpKinds (link : Link) (md : Metadata) :
    noLdpKinds (filterForWrite link md) := fun t ht =>
  ((mem_filterForWrite link md t).mp ht).2.1

lemma filter_noModified (link : Link) (md : Metadata) :
    noModified (filterForWrite link md) := fun t ht =>
  ((mem_filterForWrite link md t).mp ht).2.2.1

lemma filter_condCT (link : Link) (md : Metadata)
    (h : isContainerPath link.filePath = true ∨ link.contentType = mdContentType md) :
    noCT (filterForWrite link md) := fun t ht =>
  ((mem_filterForWrite link md t).mp ht).2.2.2 h

/-- Claim C8 counterexample: a metadata input holding posix size and mtime
triples is persisted verbatim into the sidecar by writeMetadata, so the
stored sidecar does contain storage-derived posix-like facts. -/
theorem sidecar_persists_posix_cex :
    findE (writeMetadata fimMapper emptyStore exDocId exMdPosix).2.1.entries
      (metaKey exDocId) = some (Blob.mk (Content.quads exMdPosix) 0) ∧
    Triple.mk Pred.posixSize "5" ∈ exMdPosix ∧
    Triple.mk Pred.posixMtime "99" ∈ exMdPosix :=
  ⟨rfl, by decide, by decide⟩

/-- Claim C8 amended: the write filter drops exactly the LDP kind triples, the
dc-modified triples and, when the link is a container path or the link
content-type equals the metadata content-type, the content-type triples;
every other triple, posix mtime and size included, is persisted.  When
nothing remains no sidecar is written and an existing one is deleted;
otherwise the serialized survivors are stored at the sidecar key. -/
theorem writeMetadataFile_drops_exactly (mp : Mapper) (s : Store) (link : Link)
    (md : Metadata) :
    (∀ t, t ∈ filterForWrite link md ↔ t ∈ md ∧
      ¬(t.pred = Pred.rdfType ∧
        (t.obj = ldpResource ∨ t.obj = ldpContainer ∨ t.obj = ldpBasicContainer)) ∧
      t.pred ≠ Pred.dcModified ∧
      ((isContainerPath link.filePath = true ∨ link.contentType = mdContentType md) →
        t.pred ≠ Pred.contentType)) ∧
    (filterForWrite link md = [] →
      writeMetadataFile mp s link md =
        (.ok false, Store.delE s ((mp link.identifier true none).filePath), [])) ∧
    (0 < (filterForWrite link md).length →
      (mp link.identifier true none).filePath ∉ s.putFaulty →
      findE (writeMetadataFile mp s link md).2.1.entries
        ((mp link.identifier true none).filePath) =
        some (Blob.mk (Content.quads (filterForWrite link md)) s.now)) := by
  refine ⟨mem_filterForWrite link md, ?_, ?_⟩
  · intro h
    have hred := writeMetadataFile_eq_neg mp s link md (by rw [h]; rfl)
    rw [hred, h]
  · intro hq hmk
    rw [writeMetadataFile_eq_pos mp s link md hq hmk]
    exact findE_upsert_self _ _ _

/-- Witness for the sidecar filtering theorem at a concrete sidecar
write of posix-style metadata. -/
theorem writeMetadataFile_drops_exactly_witness :
    0 < (filterForWrite (fimMapper exDocId true none) exMdPosix).length ∧
    (fimMapper (fimMapper exDocId true none).identifier true none).filePath ∉
      emptyStore.putFaulty ∧
    findE (writeMetadataFile fimMapper emptyStore (fimMapper exDocId true none)
        exMdPosix).2.1.entries
      ((fimMapper (fimMapper exDocId true none).identifier true none).filePath) =
      some (Blob.mk (Content.quads (filterForWrite (fimMapper exDocId true none)
        exMdPosix)) emptyStore.now) :=
  ⟨by decide, by decide,
    (writeMetadataFile_drops_exactly fimMapper emptyStore
      (fimMapper exDocId true none) exMdPosix).2.2 (by decide) (by decide)⟩

lemma writeMetadataFile_md (mp : Mapper) (s : Store) (link : Link) (md : Metadata) :
    (writeMetadataFile mp s link md).2.2 = filterForWrite link md := by
  simp only [writeMetadataFile]
  split
  · cases hv : vcreateWriteStream s ((mp link.identifier true none).filePath)
        (Content.quads (filterForWrite link md)) with
    | mk r s' => cases r <;> rfl
  · rfl

lemma writeMetadata_md (mp : Mapper) (s : Store) (id : Identifier) (md : Metadata) :
    (writeMetadata mp s id md).2.2 = filterForWrite (mp id true none) md := by
  simp only [writeMetadata]
  cases hw : writeMetadataFile mp s (mp id true none) md with
  | mk r rest =>
    obtain ⟨s', md'⟩ := rest
    have h := writeMetadataFile_md mp s (mp id true none) md
    rw [hw] at h
    cases r <;> exact h

lemma writeDocument_md (mp : Mapper) (s : Store) (id : Identifier)
    (bytes : List Nat) (md : Metadata) :
    (writeDocument mp s id bytes md).2.2 =
      filterForWrite (mp id false (mdContentType md)) md := by
  have h := writeMetadataFile_md mp
    (verifyExistingExtension mp s (mp id false (mdContentType md)))
    (mp id false (mdContentType md)) md
  simp only [writeDocument]
  split
  case h_1 e s2 md' heq =>
    rw [heq] at h
    exact h
  case h_2 wrote s2 md' heq =>
    rw [heq] at h
    split
    case h_1 => exact h
    case h_2 =>
      split
      case isTrue => exact h
      case isFalse => exact h

lemma vstat_error_enoent (s : Store) (p : String) (e : Err)
    (h : vstat s p = .error e) : e = .enoent := by
  unfold vstat at h
  split at h
  · cases hh : s.headE (p ++ markerSuffix) with
    | ok b => rw [hh] at h; exact Except.noConfusion h
    | error e' =>
      rw [hh] at h
      injection h with h1
      exact h1.symm
  · cases hh : s.headE p with
    | ok b => rw [hh] at h; exact Except.noConfusion h
    | error e' =>
      rw [hh] at h
      injection h with h1
      exact h1.symm

lemma vensureDir_fst (s : Store) (p : String)
    (hm : (p ++ markerSuffix) ∉ s.putFaulty) : (vensureDir s p).1 = .ok () := by
  unfold vensureDir
  cases hst : vstat s p with
  | ok st => rfl
  | error e =>
    have he : e = .enoent := vstat_error_enoent s p e hst
    subst he
    simp [vcreateWriteStream, Store.putE, hm]

lemma writeContainer_md_aux (mp : Mapper) (s1 : Store) (id : Identifier)
    (md : Metadata) :
    (match writeMetadataFile mp s1 (mp id false none) md with
      | (Except.ok _, s2, md') => ((Except.ok () : Except Err Unit), s2, md')
      | (Except.error e, s2, md') => (Except.error e, s2, md')).2.2 =
      filterForWrite (mp id false none) md := by
  cases hw : writeMetadataFile mp s1 (mp id false none) md with
  | mk r2 rest =>
    obtain ⟨s2, md'⟩ := rest
    have h := writeMetadataFile_md mp s1 (mp id false none) md
    rw [hw] at h
    cases r2 <;> exact h

lemma writeContainer_md (mp : Mapper) (s : Store) (id : Identifier) (md : Metadata)
    (hm : ((mp id false none).filePath ++ markerSuffix) ∉ s.putFaulty) :
    (writeContainer mp s id md).2.2 = filterForWrite (mp id false none) md := by
  simp only [writeContainer]
  cases he : vensureDir s (mp id false none).filePath with
  | mk r s1 =>
    have hr : r = .ok () := by
      have h1 := vensureDir_fst s (mp id false none).filePath hm
      rw [he] at h1
      exact h1
    subst hr
    exact writeContainer_md_aux mp s1 id md

/-- Claim C10: each write operation mutates the passed-in metadata in place:
after the call it has lost the LDP kind triples and the dc-modified
triples, and, when the mapped path is a container path or the metadata
carried no content-type (the value the hardcoded mapper derives from
every key), also its content-type triples. -/
theorem writeOps_mutate_metadata (s : Store) (id : Identifier) (bytes : List Nat)
    (md : Metadata)
    (hm : (primaryKey id ++ markerSuffix) ∉ s.putFaulty) :
    (noLdpKinds (writeDocument fimMapper s id bytes md).2.2 ∧
      noModified (writeDocument fimMapper s id bytes md).2.2 ∧
      ((isContainerPath (primaryKey id) = true ∨ mdContentType md = none) →
        noCT (writeDocument fimMapper s id bytes md).2.2)) ∧
    (noLdpKinds (writeContainer fimMapper s id md).2.2 ∧
      noModified (writeContainer fimMapper s id md).2.2 ∧
      ((isContainerPath (primaryKey id) = true ∨ mdContentType md = none) →
        noCT (writeContainer fimMapper s id md).2.2)) ∧
    (noLdpKinds (writeMetadata fimMapper s id md).2.2 ∧
      noModified (writeMetadata fimMapper s id md).2.2 ∧
      ((isContainerPath (metaKey id) = true ∨ mdContentType md = none) →
        noCT (writeMetadata fimMapper s id md).2.2)) := by
  have hdoc := writeDocument_md fimMapper s id bytes md
  have hcon := writeContainer_md fimMapper s id md hm
  have hmet := writeMetadata_md fimMapper s id md
  refine ⟨⟨?_, ?_, ?_⟩, ⟨?_, ?_, ?_⟩, ⟨?_, ?_, ?_⟩⟩
  · rw [hdoc]; exact filter_noLdpKinds _ _
  · rw [hdoc]; exact filter_noModified _ _
  · intro h
    rw [hdoc]
    exact filter_condCT _ _ (h.imp (fun a => a) (fun b => b.symm))
  · rw [hcon]; exact filter_noLdpKinds _ _
  · rw [hcon]; exact filter_noModified _ _
  · intro h
    rw [hcon]
    exact filter_condCT _ _ (h.imp (fun a => a) (fun b => b.symm))
  · rw [hmet]; exact filter_noLdpKinds _ _
  · rw [hmet]; exact filter_noModified _ _
  · intro h
    rw [hmet]
    exact filter_condCT _ _ (h.imp (fun a => a) (fun b => b.symm))

/-- Witness for the metadata mutation theorem at a concrete store,
document and metadata set. -/
theorem writeOps_mutate_metadata_witness :
    (primaryKey exDocId ++ markerSuffix) ∉ emptyStore.putFaulty ∧
    ((noLdpKinds (writeDocument fimMapper emptyStore exDocId [1] exMdFull).2.2 ∧
      noModified (writeDocument fimMapper emptyStore exDocId [1] exMdFull).2.2 ∧
      ((isContainerPath (primaryKey exDocId) = true ∨ mdContentType exMdFull = none) →
        noCT (writeDocument fimMapper emptyStore exDocId [1] exMdFull).2.2)) ∧
    (noLdpKinds (writeContainer fimMapper emptyStore exDocId exMdFull).2.2 ∧
      noModified (writeContainer fimMapper emptyStore exDocId exMdFull).2.2 ∧
      ((isContainerPath (primaryKey exDocId) = true ∨ mdContentType exMdFull = none) →
        noCT (writeContainer fimMapper emptyStore exDocId exMdFull).2.2)) ∧
    (noLdpKinds (writeMetadata fimMapper emptyStore exDocId exMdFull).2.2 ∧
      noModified (writeMetadata fimMapper emptyStore exDocId exMdFull).2.2 ∧
      ((isContainerPath (metaKey exDocId) = true ∨ mdContentType exMdFull = none) →
        noCT (writeMetadata fimMapper emptyStore exDocId exMdFull).2.2))) :=
  ⟨by decide, writeOps_mutate_metadata emptyStore exDocId [1] exMdFull (by decide)⟩

lemma getStats_of_find (s : Store) (p : String) (b : Blob)
    (hp : sEndsWith p "/" = false) (hf : p ∉ s.headFaulty)
    (hfind : findE s.entries p = some b) :
    getStats s p = .ok ⟨true, false, b.uploadedAt, b.content.csize⟩ := by
  simp [getStats, vstat, Store.headE, hp, hf, hfind]

lemma getStats_none (s : Store) (p : String)
    (hp : sEndsWith p "/" = false) (hf : p ∉ s.headFaulty)
    (hfind : findE s.entries p = none) :
    getStats s p = .error .notFoundHttp := by
  simp [getStats, vstat, Store.headE, hp, hf, hfind]

lemma getStats_dir_of_marker (s : Store) (p : String) (b : Blob)
    (hp : sEndsWith p "/" = true) (hf : (p ++ markerSuffix) ∉ s.headFaulty)
    (hfind : findE s.entries (p ++ markerSuffix) = some b) :
    getStats s p = .ok ⟨false, true, b.uploadedAt, 0⟩ := by
  simp [getStats, vstat, Store.headE, hp, hf, hfind]

lemma getStats_dir_none (s : Store) (p : String)
    (hp : sEndsWith p "/" = true) (hf : (p ++ markerSuffix) ∉ s.headFaulty)
    (hfind : findE s.entries (p ++ markerSuffix) = none) :
    getStats s p = .error .notFoundHttp := by
  simp [getStats, vstat, Store.headE, hp, hf, hfind]

/-- Claim C5: deleteResource deletes the sidecar unconditionally (deleting an
absent sidecar is not an error), then stats the primary key and deletes
it when the reported kind matches the identifier kind; when neither a
primary object nor, for containers, a marker exists it fails with
NotFound, and calling it again on the resulting store still fails with
NotFound without crashing. -/
theorem deleteResource_spec (s : Store) (id : Identifier)
    (hne : metaKey id ≠ primaryKey id)
    (hf : primaryKey id ∉ s.headFaulty)
    (hmf : (primaryKey id ++ markerSuffix) ∉ s.headFaulty)
    (hmne : primaryKey id ++ markerSuffix ≠ metaKey id) :
    findE (deleteResource fimMapper s id).2.entries (metaKey id) = none ∧
    (isContainerIdentifier id = false → sEndsWith (primaryKey id) "/" = false →
      ((∀ b, findE s.entries (primaryKey id) = some b →
        (deleteResource fimMapper s id).1 = .ok () ∧
        findE (deleteResource fimMapper s id).2.entries (primaryKey id) = none) ∧
      (findE s.entries (primaryKey id) = none →
        (deleteResource fimMapper s id).1 = .error .notFoundHttp ∧
        (deleteResource fimMapper (deleteResource fimMapper s id).2 id).1 =
          .error .notFoundHttp))) ∧
    (isContainerIdentifier id = true → sEndsWith (primaryKey id) "/" = true →
      ((∀ b, findE s.entries (primaryKey id ++ markerSuffix) = some b →
        (deleteResource fimMapper s id).1 = .ok ()) ∧
      (findE s.entries (primaryKey id ++ markerSuffix) = none →
        (deleteResource fimMapper s id).1 = .error .notFoundHttp ∧
        (deleteResource fimMapper (deleteResource fimMapper s id).2 id).1 =
          .error .notFoundHttp))) := by
  have hsym : primaryKey id ≠ metaKey id := Ne.symm hne
  have hfind1 : ∀ k, k ≠ metaKey id →
      findE (Store.delE s (metaKey id)).entries k = findE s.entries k := by
    intro k hk
    simp only [Store.delE]
    exact findE_eraseK_ne _ _ _ hk
  refine ⟨?_, ?_, ?_⟩
  · simp only [deleteResource, vremove, fim_filePath_true, fim_filePath_false]
    split
    · simp only [Store.delE]
      exact findE_eraseK_self _ _
    · split
      · simp only [Store.delE]
        rw [findE_eraseK_ne _ _ _ hne]
        exact findE_eraseK_self _ _
      · split
        · simp only [Store.delE]
          rw [findE_eraseK_ne _ _ _ hne]
          exact findE_eraseK_self _ _
        · simp only [Store.delE]
          exact findE_eraseK_self _ _
  · intro hcont hp
    constructor
    · intro b hb
      have h1 : findE (Store.delE s (metaKey id)).entries (primaryKey id) = some b := by
        rw [hfind1 _ hsym]
        exact hb
      have hst : getStats (Store.delE s (metaKey id)) (primaryKey id) =
          .ok ⟨true, false, b.uploadedAt, b.content.csize⟩ :=
        getStats_of_find _ _ b hp hf h1
      constructor
      · simp only [deleteResource, vremove, fim_filePath_true, fim_filePath_false, hst]
        simp [hcont]
      · simp only [deleteResource, vremove, fim_filePath_true, fim_filePath_false, hst]
        simp only [hcont, Bool.not_false, Bool.true_and]
        simp only [Store.delE]
        exact findE_eraseK_self _ _
    · intro hb
      have h1 : findE (Store.delE s (metaKey id)).entries (primaryKey id) = none := by
        rw [hfind1 _ hsym]
        exact hb
      have hst : getStats (Store.delE s (metaKey id)) (primaryKey id) =
          .error .notFoundHttp := getStats_none _ _ hp hf h1
      have hstore : (deleteResource fimMapper s id).2 = Store.delE s (metaKey id) := by
        simp only [deleteResource, vremove, fim_filePath_true, fim_filePath_false, hst]
      constructor
      · simp only [deleteResource, vremove, fim_filePath_true, fim_filePath_false, hst]
      · rw [hstore]
        have h2 : findE (Store.delE (Store.delE s (metaKey id))
            (metaKey id)).entries (primaryKey id) = none := by
          simp only [Store.delE]
          rw [findE_eraseK_ne _ _ _ hsym, findE_eraseK_ne _ _ _ hsym]
          exact hb
        have hst2 : getStats (Store.delE (Store.delE s (metaKey id)) (metaKey id))
            (primaryKey id) = .error .notFoundHttp := getStats_none _ _ hp hf h2
        simp only [deleteResource, vremove, fim_filePath_true, fim_filePath_false, hst2]
  · intro hcont hp
    constructor
    · intro b hb
      have h1 : findE (Store.delE s (metaKey id)).entries
          (primaryKey id ++ markerSuffix) = some b := by
        rw [hfind1 _ hmne]
        exact hb
      have hst : getStats (Store.delE s (metaKey id)) (primaryKey id) =
          .ok ⟨false, true, b.uploadedAt, 0⟩ :=
        getStats_dir_of_marker _ _ b hp hmf h1
      simp only [deleteResource, vremove, fim_filePath_true, fim_filePath_false, hst]
      simp [hcont]
    · intro hb
      have h1 : findE (Store.delE s (metaKey id)).entries
          (primaryKey id ++ markerSuffix) = none := by
        rw [hfind1 _ hmne]
        exact hb
      have hst : getStats (Store.delE s (metaKey id)) (primaryKey id) =
          .error .notFoundHttp := getStats_dir_none _ _ hp hmf h1
      have hstore : (deleteResource fimMapper s id).2 = Store.delE s (metaKey id) := by
        simp only [deleteResource, vremove, fim_filePath_true, fim_filePath_false, hst]
      constructor
      · simp only [deleteResource, vremove, fim_filePath_true, fim_filePath_false, hst]
      · rw [hstore]
        have h2 : findE (Store.delE (Store.delE s (metaKey id))
            (metaKey id)).entries (primaryKey id ++ markerSuffix) = none := by
          simp only [Store.delE]
          rw [findE_eraseK_ne _ _ _ hmne, findE_eraseK_ne _ _ _ hmne]
          exact hb
        have hst2 : getStats (Store.delE (Store.delE s (metaKey id)) (metaKey id))
            (primaryKey id) = .error .notFoundHttp := getStats_dir_none _ _ hp hmf h2
        simp only [deleteResource, vremove, fim_filePath_true, fim_filePath_false, hst2]

/-- Witness for the deleteResource theorem at a store holding the
concrete document and no sidecar. -/
theorem deleteResource_spec_witness :
    metaKey exDocId ≠ primaryKey exDocId ∧
    primaryKey exDocId ∉ exStoreDoc.headFaulty ∧
    (primaryKey exDocId ++ markerSuffix) ∉ exStoreDoc.headFaulty ∧
    primaryKey exDocId ++ markerSuffix ≠ metaKey exDocId ∧
    (findE (deleteResource fimMapper exStoreDoc exDocId).2.entries
        (metaKey exDocId) = none ∧
      (isContainerIdentifier exDocId = false →
        sEndsWith (primaryKey exDocId) "/" = false →
        ((∀ b, findE exStoreDoc.entries (primaryKey exDocId) = some b →
          (deleteResource fimMapper exStoreDoc exDocId).1 = .ok () ∧
          findE (deleteResource fimMapper exStoreDoc exDocId).2.entries
            (primaryKey exDocId) = none) ∧
        (findE exStoreDoc.entries (primaryKey exDocId) = none →
          (deleteResource fimMapper exStoreDoc exDocId).1 = .error .notFoundHttp ∧
          (deleteResource fimMapper (deleteResource fimMapper exStoreDoc exDocId).2
            exDocId).1 = .error .notFoundHttp))) ∧
      (isContainerIdentifier exDocId = true →
        sEndsWith (primaryKey exDocId) "/" = true →
        ((∀ b, findE exStoreDoc.entries (primaryKey exDocId ++ markerSuffix) =
            some b → (deleteResource fimMapper exStoreDoc exDocId).1 = .ok ()) ∧
        (findE exStoreDoc.entries (primaryKey exDocId ++ markerSuffix) = none →
          (deleteResource fimMapper exStoreDoc exDocId).1 = .error .notFoundHttp ∧
          (deleteResource fimMapper (deleteResource fimMapper exStoreDoc exDocId).2
            exDocId).1 = .error .notFoundHttp)))) :=
  ⟨by decide, by decide, by decide, by decide,
    deleteResource_spec exStoreDoc exDocId (by decide) (by decide) (by decide)
      (by decide)⟩

lemma findE_vcws_other (s : Store) (p : String) (c : Content) (k : String)
    (h : k ≠ p) : findE (vcreateWriteStream s p c).2.entries k = findE s.entries k := by
  simp only [vcreateWriteStream, Store.putE]
  by_cases hm : p ∈ s.putFaulty
  · simp [hm]
  · simp [hm, findE_upsert_ne _ _ _ _ h]

lemma findE_writeDataFile_other (s : Store) (p : String) (c : Content) (k : String)
    (h : k ≠ p) : findE (writeDataFile s p c).2.entries k = findE s.entries k := by
  simp only [writeDataFile]
  exact findE_vcws_other s p c k h

lemma findE_writeMetadataFile_other (mp : Mapper) (s : Store) (link : Link)
    (md : Metadata) (k : String)
    (hk : k ≠ (mp link.identifier true none).filePath) :
    findE (writeMetadataFile mp s link md).2.1.entries k = findE s.entries k := by
  simp only [writeMetadataFile]
  split
  · have h2 := findE_vcws_other s ((mp link.identifier true none).filePath)
      (Content.quads (filterForWrite link md)) k hk
    split
    case h_1 a s' heq =>
      rw [heq] at h2
      exact h2
    case h_2 e s' heq =>
      rw [heq] at h2
      exact h2
  · simp only [vremove, Store.delE]
    exact findE_eraseK_ne _ _ _ hk

lemma findE_writeDocument_other (mp : Mapper) (s : Store) (id : Identifier)
    (bytes : List Nat) (md : Metadata) (k : String)
    (hk1 : k ≠ (mp id false (mdContentType md)).filePath)
    (hk2 : k ≠ (mp (mp id false (mdContentType md)).identifier true none).filePath)
    (hk3 : k ≠ (mp id true none).filePath)
    (hk0 : findE (verifyExistingExtension mp s
      (mp id false (mdContentType md))).entries k = none) :
    findE (writeDocument mp s id bytes md).2.1.entries k = none := by
  have hmeta := findE_writeMetadataFile_other mp
    (verifyExistingExtension mp s (mp id false (mdContentType md)))
    (mp id false (mdContentType md)) md k hk2
  simp only [writeDocument]
  split
  case h_1 e s2 md' heq =>
    rw [heq] at hmeta
    exact hmeta.trans hk0
  case h_2 wrote s2 md' heq =>
    rw [heq] at hmeta
    have h2 : findE s2.entries k = none := hmeta.trans hk0
    have hdata := findE_writeDataFile_other s2
      ((mp id false (mdContentType md)).filePath) (Content.bytes bytes) k hk1
    split
    case h_1 a s3 hd =>
      rw [hd] at hdata
      exact hdata.trans h2
    case h_2 e s3 hd =>
      rw [hd] at hdata
      have h3 : findE s3.entries k = none := hdata.trans h2
      split
      · simp only [vremove, Store.delE]
        rw [findE_eraseK_ne _ _ _ hk3]
        exact h3
      · exact h3

/-- Claim C3: when the metadata content-type makes the mapper resolve the
identifier to a storage key different from the one it resolves without a
content-type, writeDocument deletes that old key before any write, and
the stale key is absent from the final store on every outcome. -/
theorem extension_migration (mp : Mapper) (s : Store) (id : Identifier)
    (bytes : List Nat) (md : Metadata)
    (hid : (mp id false (mdContentType md)).identifier = id)
    (hdiff : (mp id false none).filePath ≠ (mp id false (mdContentType md)).filePath)
    (hmeta : (mp id false none).filePath ≠ (mp id true none).filePath) :
    findE (verifyExistingExtension mp s (mp id false (mdContentType md))).entries
      ((mp id false none).filePath) = none ∧
    findE (writeDocument mp s id bytes md).2.1.entries
      ((mp id false none).filePath) = none := by
  have hverify : verifyExistingExtension mp s (mp id false (mdContentType md)) =
      vremove s ((mp id false none).filePath) := by
    simp only [verifyExistingExtension, hid]
    rw [if_neg hdiff]
  have h0 : findE (verifyExistingExtension mp s
      (mp id false (mdContentType md))).entries ((mp id false none).filePath) = none := by
    rw [hverify]
    simp only [vremove, Store.delE]
    exact findE_eraseK_self _ _
  refine ⟨h0, findE_writeDocument_other mp s id bytes md _ hdiff ?_ hmeta h0⟩
  rw [hid]
  exact hmeta

/-- Witness for the extension-migration theorem with a mapper that keys
documents by extension and a store holding the stale text key. -/
theorem extension_migration_witness :
    (extMapper exDocId false (mdContentType exMdHtml)).identifier = exDocId ∧
    (extMapper exDocId false none).filePath ≠
      (extMapper exDocId false (mdContentType exMdHtml)).filePath ∧
    (extMapper exDocId false none).filePath ≠ (extMapper exDocId true none).filePath ∧
    (findE (verifyExistingExtension extMapper exStoreOldExt
        (extMapper exDocId false (mdContentType exMdHtml))).entries
      ((extMapper exDocId false none).filePath) = none ∧
    findE (writeDocument extMapper exStoreOldExt exDocId [2] exMdHtml).2.1.entries
      ((extMapper exDocId false none).filePath) = none) :=
  ⟨rfl, by decide, by decide,
    extension_migration extMapper exStoreOldExt exDocId [2] exMdHtml rfl
      (by decide) (by decide)⟩

lemma idxOfSlash_none (l : List Char) (h : idxOfSlash l = none) : '/' ∉ l := by
  induction l with
  | nil => simp
  | cons c r ih =>
    simp only [idxOfSlash] at h
    by_cases hc : c = '/'
    · rw [if_pos hc] at h
      cases h
    · rw [if_neg hc] at h
      have hr : idxOfSlash r = none := by
        cases hi : idxOfSlash r with
        | none => rfl
        | some j => rw [hi] at h; cases h
      intro hmem
      rcases List.mem_cons.mp hmem with h1 | h1
      · exact hc h1.symm
      · exact ih hr h1

lemma idxOfSlash_some (l : List Char) (i : Nat) (h : idxOfSlash l = some i) :
    l.take (i + 1) = l.takeWhile (fun c => c ≠ '/') ++ ['/'] ∧ '/' ∈ l := by
  induction l generalizing i with
  | nil => simp [idxOfSlash] at h
  | cons c r ih =>
    simp only [idxOfSlash] at h
    by_cases hc : c = '/'
    · rw [if_pos hc] at h
      injection h with h1
      subst hc
      rw [← h1]
      constructor
      · rfl
      · simp
    · rw [if_neg hc] at h
      cases hi : idxOfSlash r with
      | none => rw [hi] at h; cases h
      | some j =>
        rw [hi] at h
        simp only [Option.map_some', Option.some.injEq] at h
        obtain ⟨h1, h2⟩ := ih j hi
        rw [← h]
        constructor
        · rw [List.take_succ_cons, h1]
          simp [List.takeWhile_cons, hc]
        · simp [h2]

lemma childName_eq (rel : String) : childNameImpl rel = childNameSpec rel := by
  unfold childNameImpl childNameSpec
  cases h : idxOfSlash rel.toList with
  | none => rw [if_neg (idxOfSlash_none _ h)]
  | some i =>
    obtain ⟨h1, h2⟩ := idxOfSlash_some _ _ h
    rw [if_pos h2]
    show String.mk (rel.toList.take (i + 1)) =
      String.mk (rel.toList.takeWhile (fun c => c ≠ '/') ++ ['/'])
    rw [h1]

/-- Claim C4 counterexample: on a store with a sidecar key and two keys in the
same subfolder, the alternate getChildren yields one entry per stored
key: the sidecar name is visible and the subfolder name appears twice,
where the claim requires deduplicated entries with sidecars hidden. -/
theorem getChildren_noDedup_cex :
    getChildrenAlt fimMapper exStoreTree exDirId =
      .ok ["a.txt", "a.txt.meta", "sub/", "sub/"] ∧
    (["a.txt", "a.txt.meta", "sub/", "sub/"].count "sub/") = 2 :=
  ⟨rfl, by decide⟩

/-- Claim C4 amended: getChildren yields exactly one entry per stored key
under the container prefix, in store order: a relative path without a
separator names a direct child document, one with a separator is
collapsed to its first segment plus the trailing separator; duplicates
are not removed and metadata sidecar keys are not hidden. -/
theorem getChildren_maps_all_keys (mp : Mapper) (s : Store) (id : Identifier) :
    getChildrenAlt mp s id = .ok ((s.listP (getBlobIdentifier mp id)).map
      (fun kb => childNameSpec (sDrop kb.1 (sLength (getBlobIdentifier mp id))))) := by
  simp only [getChildrenAlt, childName_eq]

lemma vcreateReadStream_of_find (s : Store) (p : String) (b : Blob)
    (hf : p ∉ s.headFaulty) (hfind : findE s.entries p = some b) :
    vcreateReadStream s p = .ok b.content := by
  simp [vcreateReadStream, Store.headE, hf, hfind]

lemma getRawMetadata_of_quads (mp : Mapper) (s : Store) (id : Identifier)
    (q : List Triple) (up : Nat)
    (hp : sEndsWith ((mp id true none).filePath) "/" = false)
    (hf : (mp id true none).filePath ∉ s.headFaulty)
    (hfind : findE s.entries ((mp id true none).filePath) =
      some (Blob.mk (Content.quads q) up)) :
    getRawMetadata mp s id = .ok (updateModifiedDate q up) := by
  simp [getRawMetadata, vlstat, vstat, Store.headE, vcreateReadStream,
    parseQuadsM, hp, hf, hfind]

lemma getRawMetadata_none (mp : Mapper) (s : Store) (id : Identifier)
    (hp : sEndsWith ((mp id true none).filePath) "/" = false)
    (hf : (mp id true none).filePath ∉ s.headFaulty)
    (hfind : findE s.entries ((mp id true none).filePath) = none) :
    getRawMetadata mp s id = .ok [] := by
  simp [getRawMetadata, vlstat, vstat, Store.headE, hp, hf, hfind]

lemma mdCT_getFileMetadata (mp : Mapper) (s : Store) (link : Link) (st : StatRes)
    (q : Metadata)
    (hraw : getRawMetadata mp s link.identifier = .ok q)
    (hn : link.contentType = none) :
    Except.map mdContentType (getFileMetadata mp s link st) =
      .ok (mdContentType q) := by
  have hb : mdContentType (addPosixMetadata (addResourceMetadata q false) st) =
    mdContentType q := mdCT_pipeline q false st
  simp only [getFileMetadata, getBaseMetadata, hraw, Except.map]
  have hval : mdContentType
      (if mdContentType (addPosixMetadata (addResourceMetadata q false) st) = none
        then mdSet (addPosixMetadata (addResourceMetadata q false) st)
          .contentType link.contentType
        else addPosixMetadata (addResourceMetadata q false) st) = mdContentType q := by
    cases hq : mdContentType q with
    | some c =>
      rw [if_neg (by rw [hb, hq]; simp), hb, hq]
    | none =>
      rw [if_pos (by rw [hb, hq]), hn]
      simp only [mdSet]
      exact mdGet_mdRemoveAll_self _ _
  rw [hval]

lemma getData_of_doc (s : Store) (id : Identifier) (b : Blob)
    (hp : sEndsWith (primaryKey id) "/" = false)
    (hf : primaryKey id ∉ s.headFaulty)
    (hfind : findE s.entries (primaryKey id) = some b) :
    getData fimMapper s id = .ok b.content := by
  have hst := getStats_of_find s (primaryKey id) b hp hf hfind
  simp [getData, fim_filePath_false, hst, vcreateReadStream, Store.headE, hf, hfind]

lemma getMetadata_doc_ct (s : Store) (id : Identifier) (b : Blob) (q : Metadata)
    (hcont : isContainerIdentifier id = false)
    (hp : sEndsWith (primaryKey id) "/" = false)
    (hf : primaryKey id ∉ s.headFaulty)
    (hfind : findE s.entries (primaryKey id) = some b)
    (hraw : getRawMetadata fimMapper s id = .ok q) :
    Except.map mdContentType (getMetadata fimMapper s id) = .ok (mdContentType q) := by
  have hst := getStats_of_find s (primaryKey id) b hp hf hfind
  have hfm := mdCT_getFileMetadata fimMapper s (fimMapper id false none)
    ⟨true, false, b.uploadedAt, b.content.csize⟩ q hraw rfl
  simp only [getMetadata, fim_filePath_false, hst, hcont, Bool.not_false,
    Bool.true_and, if_true]
  exact hfm

/-- Claim C2: a successful writeDocument followed by getData returns exactly
the written bytes, and getMetadata reports the same content-type value
the written metadata carried (restored from the sidecar when one was
written, absent otherwise). -/
theorem writeDocument_roundTrip (s : Store) (id : Identifier) (bytes : List Nat)
    (md : Metadata)
    (h1 : isContainerIdentifier id = false)
    (h2 : sEndsWith (primaryKey id) "/" = false)
    (h3 : sEndsWith (metaKey id) "/" = false)
    (h4 : primaryKey id ≠ metaKey id)
    (h5 : primaryKey id ∉ s.putFaulty)
    (h6 : metaKey id ∉ s.putFaulty)
    (h7 : primaryKey id ∉ s.headFaulty)
    (h8 : metaKey id ∉ s.headFaulty) :
    (writeDocument fimMapper s id bytes md).1 = .ok () ∧
    getData fimMapper (writeDocument fimMapper s id bytes md).2.1 id =
      .ok (Content.bytes bytes) ∧
    Except.map mdContentType
      (getMetadata fimMapper (writeDocument fimMapper s id bytes md).2.1 id) =
      .ok (mdContentType md) := by
  by_cases hq : 0 < (filterForWrite (fimMapper id false (mdContentType md)) md).length
  · rw [writeDocument_fim_ok_pos s id bytes md hq h6 h5]
    refine ⟨rfl, ?_, ?_⟩
    · exact getData_of_doc _ id (Blob.mk (Content.bytes bytes) s.now) h2 h7
        (findE_upsert_self _ _ _)
    · have hfq : findE (upsert (upsert s.entries (metaKey id)
          (Blob.mk (Content.quads (filterForWrite (fimMapper id false
            (mdContentType md)) md)) s.now))
          (primaryKey id) (Blob.mk (Content.bytes bytes) s.now)) (metaKey id) =
          some (Blob.mk (Content.quads (filterForWrite (fimMapper id false
            (mdContentType md)) md)) s.now) := by
        rw [findE_upsert_ne _ _ _ _ (Ne.symm h4)]
        exact findE_upsert_self _ _ _
      refine Eq.trans (getMetadata_doc_ct _ id (Blob.mk (Content.bytes bytes) s.now)
        (updateModifiedDate (filterForWrite (fimMapper id false (mdContentType md))
          md) s.now) h1 h2 h7 (findE_upsert_self _ _ _)
        (getRawMetadata_of_quads fimMapper _ id
          (filterForWrite (fimMapper id false (mdContentType md)) md) s.now
          h3 h8 hfq)) ?_
      rw [mdCT_updateModified,
        mdCT_filterForWrite (fimMapper id false (mdContentType md)) md h2 rfl]
  · have hq0 : (filterForWrite (fimMapper id false (mdContentType md)) md).length
        = 0 := by omega
    rw [writeDocument_fim_ok_neg s id bytes md hq0 h5]
    refine ⟨rfl, ?_, ?_⟩
    · exact getData_of_doc _ id (Blob.mk (Content.bytes bytes) s.now) h2 h7
        (findE_upsert_self _ _ _)
    · have hfq : findE (upsert (eraseK s.entries (metaKey id))
          (primaryKey id) (Blob.mk (Content.bytes bytes) s.now)) (metaKey id) =
          none := by
        rw [findE_upsert_ne _ _ _ _ (Ne.symm h4)]
        exact findE_eraseK_self _ _
      refine Eq.trans (getMetadata_doc_ct _ id (Blob.mk (Content.bytes bytes) s.now)
        [] h1 h2 h7 (findE_upsert_self _ _ _)
        (getRawMetadata_none fimMapper _ id h3 h8 hfq)) ?_
      have hmdnone : mdContentType md = none := by
        have h := mdCT_filterForWrite (fimMapper id false (mdContentType md)) md h2 rfl
        rw [List.length_eq_zero.mp hq0] at h
        exact h.symm
      rw [hmdnone]
      rfl

/-- Witness for the round-trip theorem: write the concrete document with
a plain-text content-type into the empty store, then read it back. -/
theorem writeDocument_roundTrip_witness :
    isContainerIdentifier exDocId = false ∧
    sEndsWith (primaryKey exDocId) "/" = false ∧
    sEndsWith (metaKey exDocId) "/" = false ∧
    primaryKey exDocId ≠ metaKey exDocId ∧
    primaryKey exDocId ∉ emptyStore.putFaulty ∧
    metaKey exDocId ∉ emptyStore.putFaulty ∧
    primaryKey exDocId ∉ emptyStore.headFaulty ∧
    metaKey exDocId ∉ emptyStore.headFaulty ∧
    ((writeDocument fimMapper emptyStore exDocId [104, 105] exMdCT).1 = .ok () ∧
    getData fimMapper (writeDocument fimMapper emptyStore exDocId [104, 105]
      exMdCT).2.1 exDocId = .ok (Content.bytes [104, 105]) ∧
    Except.map mdContentType (getMetadata fimMapper (writeDocument fimMapper
      emptyStore exDocId [104, 105] exMdCT).2.1 exDocId) =
      .ok (mdContentType exMdCT)) :=
  ⟨by decide, by decide, by decide, by decide, by decide, by decide, by decide,
    by decide,
    writeDocument_roundTrip emptyStore exDocId [104, 105] exMdCT (by decide)
      (by decide) (by decide) (by decide) (by decide) (by decide) (by decide)
      (by decide)⟩

end VercelBlob
